import Mathlib

/-!
Shallow embedding of the realtime voice-agent backend
(`AI-realtime-voice-agent`), covering:

* the utterance aggregator built from `DeepgramTranscriber.on_message` /
  `reset` and the flush check in `AudioStreamManager.process_audio`
  (`src/core/transcriber.py`, `src/core/stream_manager.py`);
* the Redis-backed per-client FIFO of `QueueManager`
  (`src/utils/queue_manager.py`), with the Redis list commands
  `lpush` / `brpop` / `delete` modelled on an explicit store and the
  JSON serialization round-trip modelled as exact;
* the connection registry `RedisManager.unregister_websocket`
  (`src/utils/redis_manager.py`);
* the dispatch loop `AudioStreamManager.process_queue` and the ingest
  loop `AudioStreamManager.process_audio` as step functions over
  environment events, recording the actions each iteration performs;
* the WebRTC VAD wrapper (`src/utils/silence_detector.py`);
* the TTS streamer `TextToSpeechHandler.stream_audio`
  (`src/core/speech_generator.py`);
* the sentence splitter/deduplicator `SentenceProcessor`
  (`src/utils/sentence_processor.py`) and the enqueue pipeline of
  `ResponseGenerator.process_response` (`src/core/response_generator.py`).
-/

namespace VoiceAgent

set_option maxRecDepth 100000

/-! ### Utterance aggregator

`DeepgramTranscriber` keeps `is_finals : list[str]` and a boolean
`transcription_complete`.  `on_message` appends final transcript
fragments and marks completion on `speech_final`; `reset` clears both.
`AudioStreamManager.process_audio` flushes when the flag is set and the
fragment list is non-empty, joining fragments with `" ".join`. -/

structure AggState where
  is_finals : List String
  transcription_complete : Bool
deriving DecidableEq, Repr

/-- Source `DeepgramTranscriber.reset`: `is_finals = []`, `transcription_complete = False`. -/
def aggReset : AggState := ⟨[], false⟩

/-- Source `DeepgramTranscriber.on_message`: ignore empty transcripts; on
`is_final` append the sentence to `is_finals`; on `speech_final`
additionally set `transcription_complete`. -/
def on_message (st : AggState) (sentence : String) (isFinal speechFinal : Bool) : AggState :=
  if sentence = "" then st
  else if isFinal then
    if speechFinal then ⟨st.is_finals ++ [sentence], true⟩
    else ⟨st.is_finals ++ [sentence], st.transcription_complete⟩
  else st

/-- The flush check at the top of `AudioStreamManager.process_audio`:
if `transcription_complete and len(is_finals) > 0`, emit the utterance
`" ".join(is_finals)` and `reset()`; otherwise emit nothing and leave
the state unchanged. -/
def flushStep (st : AggState) : Option String × AggState :=
  if st.transcription_complete && !st.is_finals.isEmpty then
    (some (String.intercalate " " st.is_finals), aggReset)
  else (none, st)

/-! ### Durable per-client queue (`QueueManager` over Redis lists)

The Redis store maps each key to a list of messages, head = most
recently `lpush`ed.  `brpop` pops from the tail (the oldest element);
on an empty list it returns no message once the timeout elapses.
`json.dumps` / `json.loads` round-trip the message dictionaries
exactly, so the store holds the messages themselves. -/

structure QMessage where
  mtype : String
  content : String
  timestamp : Nat
deriving DecidableEq, Repr

/-- Redis store: key ↦ list, head = left end of the Redis list. -/
def RStore := String → List QMessage

def emptyStore : RStore := fun _ => []

def storeSet (s : RStore) (k : String) (v : List QMessage) : RStore :=
  fun k' => if k' = k then v else s k'

/-- Redis `LPUSH key m`: prepend at the left end. -/
def lpush (s : RStore) (k : String) (m : QMessage) : RStore :=
  storeSet s k (m :: s k)

/-- Redis `BRPOP key timeout`: pop from the right end (oldest element); an
empty list yields no message. -/
def brpop (s : RStore) (k : String) : Option QMessage × RStore :=
  match s k with
  | [] => (none, s)
  | l@(_ :: _) => (some (l.getLastD ⟨"", "", 0⟩), storeSet s k l.dropLast)

/-- Redis `DEL key`. -/
def rdelete (s : RStore) (k : String) : RStore := storeSet s k []

inductive QueueError where
  | operationError (msg : String)
  | connectionError (msg : String)
deriving DecidableEq, Repr

/-- Source `QueueManager.get_queue_key`: rejects a falsy `user_id`, otherwise
returns `"queue:" + user_id`. -/
def get_queue_key (user_id : String) : Except QueueError String :=
  if user_id = "" then .error (.operationError "Invalid user_id")
  else .ok ("queue:" ++ user_id)

/-- Source `QueueManager.put`: serialize and `lpush` onto the user's queue key. -/
def qmPut (user_id : String) (message : QMessage) (s : RStore) : Except QueueError RStore := do
  let key ← get_queue_key user_id
  return lpush s key message

/-- Source `QueueManager.get`: a negative timeout raises `QueueOperationError`;
otherwise `brpop` the user's queue key, returning the message (or `None`
when the timeout elapses with the queue empty). -/
def qmGet (user_id : String) (timeout : Int) (s : RStore) :
    Except QueueError (Option QMessage × RStore) := do
  if timeout < 0 then
    throw (.operationError "Timeout cannot be negative")
  let key ← get_queue_key user_id
  return brpop s key

/-- Source `QueueManager.clear_user_queue`: `DEL` the user's queue key. -/
def qmClear (user_id : String) (s : RStore) : Except QueueError RStore := do
  let key ← get_queue_key user_id
  return rdelete s key

/-- Enqueue a list of messages in order with `qmPut`. -/
def qmPutAll (user_id : String) (ms : List QMessage) (s : RStore) :
    Except QueueError RStore :=
  match ms with
  | [] => .ok s
  | m :: rest => do
    let s' ← qmPut user_id m s
    qmPutAll user_id rest s'

/-- Dequeue up to `n` messages with `qmGet`, collecting the results in
order; stops early on an error or an empty answer. -/
def qmDrain (user_id : String) (timeout : Int) (s : RStore) :
    Nat → List QMessage × RStore
  | 0 => ([], s)
  | n + 1 =>
    match qmGet user_id timeout s with
    | .ok (some m, s') =>
      let (l, s'') := qmDrain user_id timeout s' n
      (m :: l, s'')
    | _ => ([], s)

/-- Enqueue `ms` with `qmPut` and then dequeue `ms.length` times,
keeping only the dequeued messages (the store is dropped so that runs
can be compared independently of the store representation). -/
def drainAfterPuts (user_id : String) (timeout : Int) (ms : List QMessage) (s : RStore) :
    Except QueueError (List QMessage) :=
  (qmPutAll user_id ms s).map (fun s' => (qmDrain user_id timeout s' ms.length).1)

/-- Runs `clear_user_queue` followed by one `get`, keeping only the answer. -/
def clearThenGet (user_id : String) (timeout : Int) (s : RStore) :
    Except QueueError (Option QMessage) :=
  (qmClear user_id s).bind (fun s' => (qmGet user_id timeout s').map Prod.fst)

/-- The three sentence messages of the spec's dispatch scenario. -/
def msgA : QMessage := ⟨"sentence", "A.", 0⟩

def msgB : QMessage := ⟨"sentence", "B.", 1⟩

def msgC : QMessage := ⟨"sentence", "C.", 2⟩

/-! ### Connection registry (`RedisManager.unregister_websocket`)

`active_websockets` is a dict from client id to socket handle (handles
modelled as `Nat`).  `unregister_websocket` checks membership first;
when absent it does nothing, and every exception on the close path is
caught, with the `del` performed in a `finally`. -/

def Registry := List (String × Nat)

def regHasClient (s : List (String × Nat)) (c : String) : Bool :=
  s.any (fun p => p.1 == c)

/-- Source `RedisManager.unregister_websocket`: delete the entry if the client
is registered; a no-op otherwise.  Total: the source catches every
exception (socket close errors are logged, the `del` still runs). -/
def unregister_websocket (s : List (String × Nat)) (c : String) : List (String × Nat) :=
  if regHasClient s c then s.eraseP (fun p => p.1 == c) else s

/-! ### Dispatch loop (`AudioStreamManager.process_queue`)

One loop iteration is driven by an environment event: the cleanup
event being observed set, the `asyncio.wait_for`-wrapped `get` timing
out, `get` returning a message (with the eventual `stream_audio`
result), the websocket-closed `RuntimeError` escaping during the
iteration, or some other exception being caught by the generic
handler.  Each iteration records the actions it performs; a `get`
action records the value held by `current_message` at the moment
`queue_manager.get` is invoked. -/

inductive QMsg where
  | sentence (content : String)
  | control (content : String)
deriving DecidableEq, Repr

inductive DEvent where
  /-- Flag `_cleanup_event.is_set()` observed at the top of the iteration. -/
  | cleanupSet
  /-- Call `asyncio.wait_for` raised `TimeoutError`: `get` was invoked but
  produced nothing and `current_message` was not assigned. -/
  | getTimeout
  /-- Call `get` returned `m`; when `m` is a sentence, `ok` is the result
  `stream_audio` eventually returns for it. -/
  | got (m : Option QMsg) (ok : Bool)
  /-- the `RuntimeError` for a closed websocket escaped while message
  `m` (returned by this iteration's `get`) was being processed. -/
  | wsClosed (m : Option QMsg)
  /-- some other exception was caught by the generic handler after this
  iteration's `get`. -/
  | queueErr
deriving DecidableEq, Repr

inductive DAct where
  /-- Call `queue_manager.get` invoked; `cur` is `current_message` at that moment. -/
  | get (cur : Option QMsg)
  | stream (content : String) (ok : Bool)
  | sleep
  /-- Slot `current_message` set back to `None`. -/
  | release
deriving DecidableEq, Repr

/-- One iteration of the `while self.is_running` body of
`process_queue`: returns the value of `current_message` after the
iteration, the actions performed, and whether the loop continues. -/
def dispatchStep (cur : Option QMsg) (e : DEvent) : Option QMsg × List DAct × Bool :=
  match e with
  | .cleanupSet => (cur, [], false)
  | e' =>
    match cur with
    | some _ => (cur, [.sleep], true)
    | none =>
      match e' with
      | .getTimeout => (none, [.get none], true)
      | .got m ok =>
        match m with
        | some (.sentence c) => (none, [.get none, .stream c ok, .release], true)
        | some (.control _) => (none, [.get none, .release, .sleep], true)
        | none => (none, [.get none, .release, .sleep], true)
      | .wsClosed m => (m, [.get none], false)
      | .queueErr => (none, [.get none, .release, .sleep], true)
      | .cleanupSet => (cur, [], false)

/-- Run `process_queue` against a list of events; the trailing
`release` is the `finally: self.current_message = None`. -/
def dispatchRun (cur : Option QMsg) : List DEvent → List DAct
  | [] => [.release]
  | e :: rest =>
    let (c', acts, cont) := dispatchStep cur e
    if cont then acts ++ dispatchRun c' rest else acts ++ [.release]

/-- Every recorded `get` happened while `current_message` was `None`. -/
def getsOnlyWhenIdle (l : List DAct) : Bool :=
  l.all fun a => match a with
    | .get c => c.isNone
    | _ => true

/-! ### Session endpoint teardown (`audio_websocket_endpoint`)

The endpoint body ends for one of four reasons; its `finally` block
runs `cancel_tasks()`, `stream_manager.cleanup()`,
`transcriber.cleanup()`, `queue_manager.clear_user_queue(client_id)`
and `manager.disconnect(websocket)` inside a single `try`, logging any
cleanup exception.  `cancel_tasks` and `stream_manager.cleanup` do not
raise (`gather` is called with `return_exceptions=True`; `cleanup`
only sets flags and sleeps); `transcriber.cleanup` awaits the external
Deepgram `finish()`, which may raise. -/

inductive EndReason where
  /-- one of the two loop tasks finished with an exception. -/
  | taskExc
  /-- one of the two loop tasks finished normally. -/
  | taskDone
  /-- `WebSocketDisconnect`. -/
  | disconnect
deriving DecidableEq, Repr

inductive TAct where
  | cancelAllTasks
  | smCleanup
  | trCleanup
  | clearQueue
  | wsDisconnect
  | sendErrorJson
  | logCleanupError
deriving DecidableEq, Repr

/-- The `finally` block; `trRaises` is whether the external
`dg_connection.finish()` inside `transcriber.cleanup()` raises, which
jumps to the `except cleanup_error` handler and skips the remaining
steps. -/
def finallyBlock (trRaises : Bool) : List TAct :=
  if trRaises then
    [.cancelAllTasks, .smCleanup, .trCleanup, .logCleanupError]
  else
    [.cancelAllTasks, .smCleanup, .trCleanup, .clearQueue, .wsDisconnect]

/-- Source `audio_websocket_endpoint` from task spawn onwards: the handler for
a generic exception sends a best-effort error envelope and re-raises;
the disconnect and normal paths send nothing; then the `finally` block
runs. -/
def audio_websocket_endpoint (r : EndReason) (trRaises : Bool) : List TAct :=
  (match r with
   | .taskExc => [.sendErrorJson]
   | .taskDone => []
   | .disconnect => []) ++ finallyBlock trRaises

/-! ### Segmenter (`WebRTCVAD`)

Bytes are modelled as `Nat`s; the WebRTC voice-activity model itself
is external and appears as an oracle on frames.  `frame_size` is
`int(16000 * 20 / 1000) * 2 = 640` bytes.  `split_into_frames` walks
`range(0, len(chunk), frame_size)` and keeps only full-size slices;
`is_speech` reports whether the model marks any full frame as speech
(the `try` around the body turns any model exception into `False`,
and no exception arises since every kept frame has the exact size).
`is_low_energy` decodes little-endian `int16` samples (raising on an
odd byte count, hence the `Option`), squares them with `numpy`'s
wrapping `int16` arithmetic, and compares `sqrt(mean)` with the
threshold `0.01`; a negative wrapped mean makes the square root NaN
and every NaN comparison `False`, and the empty mean is NaN as well. -/

def frame_size : Nat := 16000 * 20 / 1000 * 2

def split_into_frames (chunk : List Nat) : List (List Nat) :=
  ((List.range ((chunk.length + frame_size - 1) / frame_size)).map
      (fun i => (chunk.drop (i * frame_size)).take frame_size)).filter
    (fun f => f.length == frame_size)

def is_speech (vad : List Nat → Bool) (chunk : List Nat) : Bool :=
  (split_into_frames chunk).any vad

/-- Wrap an integer into the `int16` range, as `numpy` does on overflow. -/
def toInt16 (z : Int) : Int := (z + 32768) % 65536 - 32768

/-- Numpy `np.frombuffer(chunk, dtype=np.int16)`: little-endian pairs; an odd
byte count raises (`none`). -/
def decodeInt16 : List Nat → Option (List Int)
  | [] => some []
  | [_] => none
  | b0 :: b1 :: rest =>
    match decodeInt16 rest with
    | some l => some (toInt16 ((b0 : Int) + 256 * b1) :: l)
    | none => none

/-- Source `WebRTCVAD.is_low_energy` with the default threshold `0.01`:
`energy = sqrt(mean(audio ** 2))` over the wrapped `int16` squares
`s = sum(sq)`, `n = len(samples)`.  For `n > 0` and `s >= 0` the float
comparison `sqrt(s / n) < 0.01` is exactly the integer condition
`10000 * s < n` (square both sides: `s / n < 1 / 10000`); a negative
wrapped sum makes the square root NaN and every NaN comparison
`False`, and the empty mean is NaN as well. -/
def is_low_energy (chunk : List Nat) : Option Bool :=
  match decodeInt16 chunk with
  | none => none
  | some samples =>
    if samples.isEmpty then some false
    else
      let s : Int := (samples.map (fun x => toInt16 (x * x))).sum
      if s < 0 then some false
      else some (decide (10000 * s < samples.length))

/-! ### TTS streamer (`TextToSpeechHandler.stream_audio`)

The provider's `generate_audio_stream` is modelled as a list of pull
results: a chunk (possibly empty, i.e. falsy and skipped) or an
exception at that pull.  `stopAt = some k` means `is_streaming` was
cleared externally (by `stop_streaming`) before the `if not
self.is_streaming` check of iteration `k` — and stays cleared, so the
post-loop `if self.is_streaming` check (at index `items.length` when
the stream was exhausted) also sees `False` whenever `k ≤ items.length`. -/

/-- Python `str.strip()`: drop leading and trailing whitespace. -/
def pyStrip (s : String) : String :=
  String.mk (((s.toList.dropWhile Char.isWhitespace).reverse.dropWhile
    Char.isWhitespace).reverse)

inductive TtsItem where
  | chunk (nonempty : Bool)
  | raiseExc
deriving DecidableEq, Repr

inductive Envelope where
  | streamStart (text : String)
  | audioChunk (n : Nat)
  | streamEnd (total : Nat)
  | streamError
deriving DecidableEq, Repr

def isTerminal : Envelope → Bool
  | .streamEnd _ => true
  | .streamError => true
  | _ => false

inductive LoopEnd where
  | finished
  | interrupted
  | errored
deriving DecidableEq, Repr

/-- The `async for chunk in provider.generate_audio_stream(text)` loop:
pull (may raise), check `is_streaming`, send non-empty chunks numbered
from 1. Returns the chunk envelopes sent, the final `chunk_count`, and
how the loop ended. -/
def ttsLoop (stopAt : Option Nat) : List TtsItem → Nat → Nat → List Envelope × Nat × LoopEnd
  | [], _, cnt => ([], cnt, .finished)
  | item :: rest, i, cnt =>
    match item with
    | .raiseExc => ([], cnt, .errored)
    | .chunk ne =>
      if stopAt.any (fun k => k ≤ i) then ([], cnt, .interrupted)
      else if ne then
        let (es, c, fin) := ttsLoop stopAt rest (i + 1) (cnt + 1)
        (.audioChunk (cnt + 1) :: es, c, fin)
      else ttsLoop stopAt rest (i + 1) cnt

/-- Source `TextToSpeechHandler.stream_audio`: empty (whitespace-only) text
returns `False` with nothing sent; otherwise the start envelope is
sent, the loop runs, and then: normal exhaustion with `is_streaming`
still set sends `audio_stream_end` with the total count and returns
`True`; an exception sends `audio_stream_error` and returns `False`;
an interruption (or `is_streaming` observed cleared after the loop)
sends no terminal envelope and returns `False`. -/
def stream_audio (text : String) (items : List TtsItem) (stopAt : Option Nat) :
    List Envelope × Bool :=
  if pyStrip text = "" then ([], false)
  else
    let (es, cnt, fin) := ttsLoop stopAt items 0 0
    match fin with
    | .errored => (.streamStart text :: es ++ [.streamError], false)
    | .interrupted => (.streamStart text :: es, false)
    | .finished =>
      if stopAt.any (fun k => k ≤ items.length) then
        (.streamStart text :: es, false)
      else
        (.streamStart text :: es ++ [.streamEnd cnt], true)

def countTerminal (l : List Envelope) : Nat := (l.filter isTerminal).length

/-! ### Ingest loop (`AudioStreamManager.process_audio`)

Each iteration: receive an audio chunk (the receive may raise), run
the aggregator flush check, and if the chunk is non-empty call
`transcriber.transcribe`, which re-raises provider errors.  Any
exception in the iteration is caught by `except Exception`: the
transcriber is cleaned up, the error logged, and the loop `break`s. -/

inductive IEvent where
  /-- Call `receive_audio` returned a chunk of `size` bytes;
  `transcribeRaises` tells whether `transcriber.transcribe` raises on it. -/
  | audio (size : Nat) (transcribeRaises : Bool)
  /-- Call `receive_audio` raised. -/
  | recvRaises
deriving DecidableEq, Repr

inductive IAct where
  /-- Call `receive_audio` attempted. -/
  | recv
  /-- flush fired: `response_generator.process_response utterance`. -/
  | respond (utterance : String)
  /-- Call `transcriber.reset()` after the flush. -/
  | resetAgg
  /-- Call `transcriber.transcribe(chunk)` attempted. -/
  | transcribeSend
  /-- Handler `except Exception`: `transcriber.cleanup()`, log, `break`. -/
  | logAndBreak
deriving DecidableEq, Repr

/-- One iteration of the `while self.is_running` body of `process_audio`. -/
def ingestStep (st : AggState) (e : IEvent) : AggState × List IAct × Bool :=
  match e with
  | .recvRaises => (st, [.recv, .logAndBreak], false)
  | .audio size traises =>
    let (uOpt, st') := flushStep st
    let pre := .recv :: (match uOpt with
      | some u => [.respond u, .resetAgg]
      | none => [])
    if 0 < size then
      if traises then (st', pre ++ [.transcribeSend, .logAndBreak], false)
      else (st', pre ++ [.transcribeSend], true)
    else (st', pre, true)

/-- Run `process_audio` against a list of events. -/
def ingestRun (st : AggState) : List IEvent → List IAct
  | [] => []
  | e :: rest =>
    let (st', acts, cont) := ingestStep st e
    if cont then acts ++ ingestRun st' rest else acts

/-! ### Sentence processor (`SentenceProcessor`) and response pipeline

`process_chunk` appends the chunk to the buffer, splits it with
`re.split(r'(?<=[.!?])\s+(?=[A-Z])|(?<=[.!?])$', buffer)`, and emits
each cleaned, complete, not-yet-processed sentence, recording it in
`processed_sentences`.  The regex matches either a maximal whitespace
run preceded by one of `.!?` and followed by an ASCII uppercase
letter, or the empty string at the end of the buffer when the last
character is one of `.!?` (which makes the split produce a trailing
empty piece). -/

def isWs (c : Char) : Bool := c.isWhitespace

def sentencePunct (c : Char) : Bool := c == '.' || c == '!' || c == '?'

def asciiUpper (c : Char) : Bool := 'A' ≤ c && c ≤ 'Z'

/-- Does the piece accumulated so far (in reverse) end in `.`, `!` or `?`
— i.e. is the regex lookbehind satisfied at the current position? -/
def lookbehindPunct (acc : List Char) : Bool :=
  match acc with
  | p :: _ => sentencePunct p
  | [] => false

/-- Scanner for the split regex: `acc` is the current piece in reverse;
the fuel is at least `length + 1`, enough for one call per consumed
character plus the final empty-input call. -/
def splitGo : Nat → List Char → List Char → List (List Char)
  | 0, acc, _ => [acc.reverse]
  | _ + 1, acc, [] =>
    if lookbehindPunct acc then [acc.reverse, []] else [acc.reverse]
  | fuel + 1, acc, c :: rest =>
    if isWs c && lookbehindPunct acc then
      let ws := (c :: rest).takeWhile isWs
      let rest' := (c :: rest).dropWhile isWs
      match rest' with
      | d :: _ =>
        if asciiUpper d then acc.reverse :: splitGo fuel [] rest'
        else splitGo fuel (ws.reverse ++ acc) rest'
      | [] => splitGo fuel (ws.reverse ++ acc) []
    else splitGo fuel (c :: acc) rest

/-- Python `re.split(sentence_end_pattern, s)`. -/
def splitSentences (s : String) : List String :=
  (splitGo (s.length + 1) [] s.toList).map fun l => String.mk l

/-- Python `str.split()` with no argument: the maximal non-whitespace
runs (splitting on whitespace and dropping empty pieces). -/
def pyWords (s : String) : List String :=
  ((s.toList.splitOnP isWs).filter (fun w => w ≠ [])).map (fun l => String.mk l)

/-- Source `SentenceProcessor._clean_sentence`: normalize whitespace and add a
trailing period when the (non-empty) result lacks end punctuation. -/
def clean_sentence (s : String) : String :=
  let cleaned := String.intercalate " " (pyWords s)
  if cleaned ≠ "" && !sentencePunct cleaned.back then cleaned ++ "." else cleaned

/-- Source `SentenceProcessor._is_complete_sentence`: non-empty, uppercase
first character, sentence punctuation last, at least two words. -/
def is_complete_sentence (t : String) : Bool :=
  if t = "" then false
  else t.front.isUpper && sentencePunct t.back && decide (2 ≤ (pyWords t).length)

structure SPState where
  buffer : String
  processed : List String
deriving DecidableEq, Repr

/-- The `for sentence in complete_sentences` body of `process_chunk`:
clean each piece, keep it when it is a complete sentence not yet in
`processed_sentences`, and record it there. -/
def emitLoop (processed : List String) : List String → List String × List String
  | [] => ([], processed)
  | s :: rest =>
    let cs := clean_sentence s
    if is_complete_sentence cs && !(decide (cs ∈ processed)) then
      let (out, p') := emitLoop (cs :: processed) rest
      (cs :: out, p')
    else emitLoop processed rest

/-- Source `SentenceProcessor.process_chunk`. -/
def process_chunk (st : SPState) (text : String) : List String × SPState :=
  let buf := st.buffer ++ text
  let potential := splitSentences buf
  if 1 < potential.length then
    let (out, p') := emitLoop st.processed potential.dropLast
    (out, ⟨potential.getLastD "", p'⟩)
  else
    if pyStrip text ≠ "" && is_complete_sentence buf then
      let cs := clean_sentence buf
      if cs ∈ st.processed then ([], ⟨buf, st.processed⟩)
      else ([cs], ⟨"", cs :: st.processed⟩)
    else ([], ⟨buf, st.processed⟩)

/-- Source `SentenceProcessor.get_remaining`. -/
def get_remaining (st : SPState) : Option String × SPState :=
  if st.buffer ≠ "" then
    let cb := clean_sentence st.buffer
    if is_complete_sentence cb && !(decide (cb ∈ st.processed)) then
      (some cb, ⟨"", cb :: st.processed⟩)
    else (none, st)
  else (none, st)

/-- The `async for chunk in ... generate_response_stream` loop of
`ResponseGenerator.process_response`, collecting every sentence passed
to `queue_manager.put` in order. -/
def processChunks (st : SPState) : List String → List String × SPState
  | [] => ([], st)
  | c :: rest =>
    let (out, st') := process_chunk st c
    let (out2, st'') := processChunks st' rest
    (out ++ out2, st'')

/-- All sentence contents `process_response` puts on the client's
queue for one streamed reply: the per-chunk emissions in order,
followed by `get_remaining` when it yields one. -/
def response_puts (chunks : List String) : List String :=
  let (out, st) := processChunks ⟨"", []⟩ chunks
  match get_remaining st with
  | (some r, _) => out ++ [r]
  | (none, _) => out

/-! ## Theorems -/

/-- C3: when a flush fires (completion flag set, at least one buffered
fragment), `process_audio` emits exactly one utterance, equal to the
buffered fragments joined by single spaces, and resets the buffer;
flushing again without new fragments emits nothing (the reset state
never fires), and a buffer with zero fragments produces no utterance. -/
theorem aggregator_flush_correct (st : AggState) :
    (st.transcription_complete = true → st.is_finals ≠ [] →
      flushStep st = (some (String.intercalate " " st.is_finals), aggReset)) ∧
    flushStep aggReset = (none, aggReset) ∧
    (st.is_finals = [] → (flushStep st).1 = none) := by
  refine ⟨fun hc hne => ?_, by decide, fun h => ?_⟩
  · have : st.is_finals.isEmpty = false := by
      cases hfin : st.is_finals with
      | nil => exact absurd hfin hne
      | cons a l => rfl
    simp [flushStep, hc, this]
  · simp [flushStep, h]

theorem aggregator_flush_correct_witness :
    flushStep (on_message (on_message aggReset "Hello" true false) "world" true true)
      = (some "Hello world", aggReset) := by
  have h := (aggregator_flush_correct
    (on_message (on_message aggReset "Hello" true false) "world" true true)).1
  simpa using h rfl (by decide)

/-- Keys of an association list stay unaffected by `eraseP` for other
clients: after erasing client `c` from a registry with distinct keys,
`c` is no longer registered. -/
theorem regHasClient_eraseP_eq_false (s : List (String × Nat)) (c : String)
    (hnd : (s.map Prod.fst).Nodup) :
    regHasClient (s.eraseP (fun p => p.1 == c)) c = false := by
  induction s with
  | nil => rfl
  | cons hd tl ih =>
    simp only [List.map_cons, List.nodup_cons] at hnd
    obtain ⟨hk, hnd'⟩ := hnd
    by_cases h : hd.1 = c
    · rw [List.eraseP_cons_of_pos (by simp [h])]
      subst h
      simp only [regHasClient, List.any_eq_false]
      intro p hp hpc
      exact hk (by simpa [eq_of_beq hpc] using List.mem_map_of_mem Prod.fst hp)
    · rw [List.eraseP_cons_of_neg (by simp [h])]
      simpa [regHasClient, h] using ih hnd'

/-- C9: unregistering a client that is not (or no longer) registered is
a no-op that raises no error (the operation is total), and for a
registry with distinct keys unregistering twice has the same effect on
the registry state as unregistering once. -/
theorem unregister_idempotent (s : List (String × Nat)) (c : String)
    (hnd : (s.map Prod.fst).Nodup) :
    (regHasClient s c = false → unregister_websocket s c = s) ∧
    unregister_websocket (unregister_websocket s c) c = unregister_websocket s c := by
  constructor
  · intro h
    simp [unregister_websocket, h]
  · by_cases h : regHasClient s c
    · have h2 := regHasClient_eraseP_eq_false s c hnd
      simp [unregister_websocket, h, h2]
    · simp [unregister_websocket, eq_false_of_ne_true h]

theorem unregister_idempotent_witness :
    unregister_websocket [("a", 1)] "b" = [("a", 1)] ∧
    unregister_websocket (unregister_websocket [("a", 1)] "b") "b"
      = unregister_websocket [("a", 1)] "b" := by
  have h := unregister_idempotent [("a", 1)] "b" (by decide)
  exact ⟨h.1 (by decide), h.2⟩

/-- C1: in every run of the dispatch loop started with an empty
`current_message` slot, every invocation of `queue_manager.get`
happens while `current_message` is `None`: at most one outbound
message is populated at a time. -/
theorem dispatch_get_only_when_idle (events : List DEvent) :
    getsOnlyWhenIdle (dispatchRun none events) = true := by
  induction events with
  | nil => rfl
  | cons e rest ih =>
    cases e with
    | cleanupSet => rfl
    | getTimeout =>
      simpa [dispatchRun, dispatchStep, getsOnlyWhenIdle] using ih
    | got m ok =>
      cases m with
      | none =>
        simpa [dispatchRun, dispatchStep, getsOnlyWhenIdle] using ih
      | some msg =>
        cases msg with
        | sentence c =>
          simpa [dispatchRun, dispatchStep, getsOnlyWhenIdle] using ih
        | control c =>
          simpa [dispatchRun, dispatchStep, getsOnlyWhenIdle] using ih
    | wsClosed m =>
      simp [dispatchRun, dispatchStep, getsOnlyWhenIdle]
    | queueErr =>
      simpa [dispatchRun, dispatchStep, getsOnlyWhenIdle] using ih

/-- C4 (counterexample): when a loop task fails and the transcriber's
external teardown itself raises inside the endpoint's cleanup `try`,
the remaining cleanup steps are skipped: the client's queue is *not*
cleared, contradicting the claim that a loop failure always clears the
queue. -/
theorem endpoint_teardown_cx :
    TAct.clearQueue ∉ audio_websocket_endpoint .taskExc true ∧
    TAct.cancelAllTasks ∈ audio_websocket_endpoint .taskExc true := by
  decide

/-- C4 (amended): for every way the endpoint body ends (a loop task
failing, a loop task finishing, or a socket disconnect), both loop
tasks are always cancelled together by the `finally` block; the
client's queue is additionally cleared provided no cleanup step before
it (the transcriber's external teardown) raises. -/
theorem endpoint_teardown (r : EndReason) (trRaises : Bool) :
    TAct.cancelAllTasks ∈ audio_websocket_endpoint r trRaises ∧
    (trRaises = false → TAct.clearQueue ∈ audio_websocket_endpoint r trRaises) := by
  cases r <;> cases trRaises <;> decide

theorem endpoint_teardown_witness :
    TAct.cancelAllTasks ∈ audio_websocket_endpoint .taskExc false ∧
    TAct.clearQueue ∈ audio_websocket_endpoint .taskExc false := by
  have h := endpoint_teardown .taskExc false
  exact ⟨h.1, h.2 rfl⟩

/-- A voice-activity model that marks every frame as speech. -/
def vadAlwaysSpeech : List Nat → Bool := fun _ => true

/-- C5 (counterexample): a 641-byte chunk — whose length is not the
configured 640-byte frame size — is not rejected with any error: its
one full frame is classified, the trailing byte is silently dropped,
and with a model marking the frame as speech the chunk classifies as
speech; a 1-byte chunk likewise classifies (as silence) rather than
being rejected. -/
theorem frame_size_rejection_cx :
    is_speech vadAlwaysSpeech (List.replicate 641 0) = true ∧
    (641 : Nat) ≠ frame_size ∧
    is_speech vadAlwaysSpeech (List.replicate 1 0) = false ∧
    (1 : Nat) ≠ frame_size := by
  decide

/-- C5 (amended): `is_speech` never rejects a chunk of any length:
it splits the chunk into 640-byte frames, silently discarding any
trailing partial frame, so every frame the model classifies has
exactly the configured size, and a chunk shorter than one frame
classifies as silence rather than raising. -/
theorem frame_size_no_reject (vad : List Nat → Bool) (chunk : List Nat) :
    (∀ f ∈ split_into_frames chunk, f.length = frame_size) ∧
    (chunk.length < frame_size → is_speech vad chunk = false) := by
  constructor
  · intro f hf
    have := (List.mem_filter.mp hf).2
    simpa using this
  · intro h
    have hempty : split_into_frames chunk = [] := by
      unfold split_into_frames
      rw [List.filter_eq_nil_iff]
      intro f hf
      obtain ⟨i, _, hif⟩ := List.mem_map.mp hf
      have hlen : f.length = min frame_size (chunk.length - i * frame_size) := by
        rw [← hif, List.length_take, List.length_drop]
      simp only [beq_iff_eq]
      rw [hlen]
      have h2 : chunk.length - i * frame_size ≤ chunk.length := Nat.sub_le _ _
      generalize chunk.length - i * frame_size = x at h2 ⊢
      omega
    simp [is_speech, hempty]

theorem frame_size_no_reject_witness :
    is_speech vadAlwaysSpeech (List.replicate 1 0) = false :=
  (frame_size_no_reject vadAlwaysSpeech (List.replicate 1 0)).2 (by decide)

/-- C6 (counterexample): a 640-byte chunk of zero samples has
root-mean-square energy `0`, below the configured floor `0.01`
(`is_low_energy` returns `true`), yet `is_speech` classifies it as
speech whenever the voice-activity model marks its frame as speech:
the classifier does not consult the energy floor. -/
theorem low_energy_gate_cx :
    is_low_energy (List.replicate 640 0) = some true ∧
    is_speech vadAlwaysSpeech (List.replicate 640 0) = true := by
  constructor
  · decide
  · decide

/-- C6 (amended): the energy floor does not gate classification:
even for a chunk whose energy is below the floor, `is_speech` is
exactly the model's verdict over the chunk's full frames
(`is_low_energy` is a separate predicate that `is_speech` never
consults, and no caller in the repository combines them). -/
theorem low_energy_not_gating (vad : List Nat → Bool) (chunk : List Nat)
    (_hle : is_low_energy chunk = some true) :
    (is_speech vad chunk = true ↔ ∃ f ∈ split_into_frames chunk, vad f = true) := by
  unfold is_speech
  exact List.any_eq_true

theorem low_energy_not_gating_witness :
    is_speech vadAlwaysSpeech (List.replicate 640 0) = true :=
  (low_energy_not_gating vadAlwaysSpeech (List.replicate 640 0) (by decide)).mpr
    ⟨List.replicate 640 0, by decide, rfl⟩

/-- With no interruption (`stopAt = none`) the TTS pull loop never
ends in the interrupted state, emits no terminal envelope of its own,
and finishes normally exactly when the provider raises at none of its
pulls. -/
theorem ttsLoop_none_spec (items : List TtsItem) (i cnt : Nat) :
    countTerminal (ttsLoop none items i cnt).1 = 0 ∧
    ((ttsLoop none items i cnt).2.2 = .finished ↔ TtsItem.raiseExc ∉ items) ∧
    (ttsLoop none items i cnt).2.2 ≠ .interrupted := by
  induction items generalizing i cnt with
  | nil => simp [ttsLoop, countTerminal]
  | cons item rest ih =>
    cases item with
    | raiseExc =>
      simp [ttsLoop, countTerminal]
    | chunk ne =>
      cases ne with
      | true =>
        have h := ih (i + 1) (cnt + 1)
        rcases hl : ttsLoop none rest (i + 1) (cnt + 1) with ⟨es, c, fin⟩
        rw [hl] at h
        simp only [ttsLoop, Option.any_none, Bool.false_eq_true, if_false, if_true, hl]
        simpa [countTerminal, isTerminal] using h
      | false =>
        have h := ih (i + 1) cnt
        simp only [ttsLoop, Option.any_none, Bool.false_eq_true, if_false]
        simpa using h

/-- C7 (counterexample): when the stream is interrupted mid-delivery
(`is_streaming` cleared before the second chunk), `stream_audio`
returns with envelopes already sent but *no* terminal envelope —
neither `audio_stream_end` nor `audio_stream_error` — before the
dispatch loop releases `current_message`. -/
theorem stream_terminal_envelope_cx :
    countTerminal (stream_audio "Hi." [.chunk true, .chunk true] (some 1)).1 = 0 ∧
    (stream_audio "Hi." [.chunk true, .chunk true] (some 1)).1
      = [.streamStart "Hi.", .audioChunk 1] := by
  constructor
  · rfl
  · rfl

/-- C7 (amended): for a sentence with non-whitespace content whose
stream is not interrupted, `stream_audio` sends exactly one terminal
envelope before the dispatch loop releases `current_message` —
`audio_stream_end` when every provider pull succeeds (and then it
reports success), `audio_stream_error` when a pull raises; on
interruption, and for whitespace-only content, no terminal envelope
is sent. -/
theorem stream_terminal_envelope (text : String) (items : List TtsItem)
    (ht : pyStrip text ≠ "") :
    countTerminal (stream_audio text items none).1 = 1 ∧
    ((stream_audio text items none).2 = true ↔ TtsItem.raiseExc ∉ items) := by
  have h := ttsLoop_none_spec items 0 0
  rcases hl : ttsLoop none items 0 0 with ⟨es, c, fin⟩
  rw [hl] at h
  obtain ⟨hterm, hfin, hnint⟩ := h
  simp only [countTerminal] at hterm
  have hes : es.filter isTerminal = [] := List.length_eq_zero.mp hterm
  cases fin with
  | interrupted => exact absurd rfl hnint
  | finished =>
    have hne : TtsItem.raiseExc ∉ items := hfin.mp rfl
    unfold stream_audio
    rw [if_neg ht, hl]
    constructor
    · simp [countTerminal, List.filter_append, hes, isTerminal, Option.any]
    · simp [hne, Option.any]
  | errored =>
    have hmem : TtsItem.raiseExc ∈ items := by
      by_contra hnm
      exact absurd (hfin.mpr hnm) (by simp)
    unfold stream_audio
    rw [if_neg ht, hl]
    constructor
    · simp [countTerminal, List.filter_append, hes, isTerminal]
    · simp [hmem]

theorem stream_terminal_envelope_witness :
    countTerminal (stream_audio "Hi." [.chunk true, .raiseExc] none).1 = 1 :=
  (stream_terminal_envelope "Hi." [.chunk true, .raiseExc] (by decide)).1

/-- C8 (counterexample): a transcription-provider error during an
ingest iteration does *not* leave the loop reading audio: with a
first chunk on which `transcribe` raises, the loop logs, cleans up
and `break`s — the following receive never happens and the session's
audio processing ends. -/
theorem transcription_error_cx :
    ingestRun aggReset [.audio 1 true, .audio 1 false]
      = [.recv, .transcribeSend, .logAndBreak] := by
  decide

/-- C8 (amended): a transcription-provider error aborts the ingest
loop: whatever the aggregator state, once `transcribe` raises on a
non-empty chunk the run is identical to the run that ends at that
event — no later audio is read. -/
theorem transcription_error_breaks (st : AggState) (size : Nat) (rest : List IEvent)
    (hs : 0 < size) :
    ingestRun st (.audio size true :: rest) = ingestRun st [.audio size true] := by
  rcases hf : flushStep st with ⟨uOpt, st'⟩
  simp [ingestRun, ingestStep, hf, hs]

theorem transcription_error_breaks_witness :
    ingestRun aggReset [.audio 1 true, .recvRaises] = ingestRun aggReset [.audio 1 true] :=
  transcription_error_breaks aggReset 1 [.recvRaises] (by decide)

theorem storeSet_self (s : RStore) (k : String) (v : List QMessage) :
    storeSet s k v k = v := by
  simp [storeSet]

theorem qmPut_eq (u : String) (hu : u ≠ "") (m : QMessage) (s : RStore) :
    qmPut u m s = .ok (lpush s ("queue:" ++ u) m) := by
  unfold qmPut get_queue_key
  rw [if_neg hu]
  rfl

theorem qmGet_eq (u : String) (hu : u ≠ "") (t : Int) (ht : ¬t < 0) (s : RStore) :
    qmGet u t s = .ok (brpop s ("queue:" ++ u)) := by
  unfold qmGet get_queue_key
  rw [if_neg ht, if_neg hu]
  rfl

theorem qmClear_eq (u : String) (hu : u ≠ "") (s : RStore) :
    qmClear u s = .ok (rdelete s ("queue:" ++ u)) := by
  unfold qmClear get_queue_key
  rw [if_neg hu]
  rfl

theorem brpop_of_empty (s : RStore) (k : String) (h : s k = []) :
    brpop s k = (none, s) := by
  unfold brpop
  rw [h]

theorem brpop_of_concat (s : RStore) (k : String) (l : List QMessage) (m : QMessage)
    (h : s k = l ++ [m]) :
    brpop s k = (some m, storeSet s k l) := by
  unfold brpop
  rw [h]
  split
  · next heq => exact absurd heq (by simp)
  · next a rest heq =>
    rw [← heq, List.getLastD_concat, List.dropLast_concat]

/-- Lemma: `qmPutAll` for a registered user never fails and leaves the user's
queue key holding the pushed messages in reverse order (newest first),
in front of whatever was there. -/
theorem qmPutAll_ok (u : String) (hu : u ≠ "") (ms : List QMessage) (s : RStore) :
    ∃ s', qmPutAll u ms s = .ok s' ∧
      s' ("queue:" ++ u) = ms.reverse ++ s ("queue:" ++ u) := by
  induction ms generalizing s with
  | nil => exact ⟨s, rfl, by simp⟩
  | cons m rest ih =>
    obtain ⟨s', h1, h2⟩ := ih (lpush s ("queue:" ++ u) m)
    refine ⟨s', ?_, ?_⟩
    · show (qmPut u m s).bind (fun s₁ => qmPutAll u rest s₁) = .ok s'
      rw [qmPut_eq u hu m s]
      exact h1
    · rw [h2]
      simp [lpush, storeSet_self, List.append_assoc]

/-- Draining a queue that holds `ms` in reverse order (newest first)
returns `ms` oldest-first and empties the key. -/
theorem qmDrain_reversed (u : String) (hu : u ≠ "") (t : Int) (ht : 0 ≤ t)
    (ms : List QMessage) (s : RStore) (hs : s ("queue:" ++ u) = ms.reverse) :
    (qmDrain u t s ms.length).1 = ms ∧
    (qmDrain u t s ms.length).2 ("queue:" ++ u) = [] := by
  induction ms generalizing s with
  | nil => simpa [qmDrain] using hs
  | cons m rest ih =>
    have hq : qmGet u t s = .ok (brpop s ("queue:" ++ u)) :=
      qmGet_eq u hu t (by omega) s
    have hb : brpop s ("queue:" ++ u)
        = (some m, storeSet s ("queue:" ++ u) rest.reverse) :=
      brpop_of_concat s _ rest.reverse m (by rw [hs, List.reverse_cons])
    have hnext := ih (storeSet s ("queue:" ++ u) rest.reverse)
      (storeSet_self s ("queue:" ++ u) rest.reverse)
    simp only [List.length_cons, qmDrain, hq, hb]
    rcases hd : qmDrain u t (storeSet s ("queue:" ++ u) rest.reverse) rest.length
      with ⟨l, s''⟩
    rw [hd] at hnext
    simpa using hnext

/-- C2 (amended): per-client FIFO — for every client id and every
sequence of messages enqueued with `put` onto an empty queue,
successive `get` calls with a nonnegative timeout return exactly those
messages in enqueue order; and after `clear_user_queue`, a `get` with
a nonnegative timeout returns "no message" (`none`), not an error.
(A get with a negative timeout raises, see the counterexample.) -/
theorem queue_fifo_clear (u : String) (hu : u ≠ "") (t : Int) (ht : 0 ≤ t)
    (ms : List QMessage) (s : RStore) (hs : s ("queue:" ++ u) = []) :
    drainAfterPuts u t ms s = .ok ms ∧ clearThenGet u t s = .ok none := by
  constructor
  · obtain ⟨s', h1, h2⟩ := qmPutAll_ok u hu ms s
    have h3 := qmDrain_reversed u hu t ht ms s' (by rw [h2, hs, List.append_nil])
    simp only [drainAfterPuts, h1, Except.map, h3.1]
  · have hc := qmClear_eq u hu s
    have hg := qmGet_eq u hu t (by omega) (rdelete s ("queue:" ++ u))
    have hb : brpop (rdelete s ("queue:" ++ u)) ("queue:" ++ u)
        = (none, rdelete s ("queue:" ++ u)) :=
      brpop_of_empty _ _ (storeSet_self s ("queue:" ++ u) [])
    simp only [clearThenGet, hc, Except.bind, hg, hb, Except.map]

/-- C2 (counterexample): the claim promises that after a clear a `get`
with *any* timeout returns "no message", but `get` with the negative
timeout `-1` raises `QueueOperationError` instead. -/
theorem queue_get_negative_timeout_cx :
    clearThenGet "u1" (-1) emptyStore
      = .error (.operationError "Timeout cannot be negative") := by
  rfl

theorem queue_fifo_clear_witness :
    drainAfterPuts "u1" 1 [msgA, msgB, msgC] emptyStore = .ok [msgA, msgB, msgC] ∧
    clearThenGet "u1" 1 emptyStore = .ok none :=
  queue_fifo_clear "u1" (by decide) 1 (by decide) [msgA, msgB, msgC] emptyStore rfl

/-- Invariants of the per-chunk emission loop: the emitted sentences
are pairwise distinct, none was in the processed set before, the
processed set only grows, and every emitted sentence is recorded in
the processed set afterwards. -/
theorem emitLoop_spec (ss : List String) (p : List String) :
    (emitLoop p ss).1.Nodup ∧
    (∀ x ∈ (emitLoop p ss).1, x ∉ p) ∧
    (∀ x ∈ p, x ∈ (emitLoop p ss).2) ∧
    (∀ x ∈ (emitLoop p ss).1, x ∈ (emitLoop p ss).2) := by
  induction ss generalizing p with
  | nil => simp [emitLoop]
  | cons s rest ih =>
    cases hg : is_complete_sentence (clean_sentence s)
        && !(decide (clean_sentence s ∈ p)) with
    | false =>
      simpa only [emitLoop, hg, Bool.false_eq_true, if_false] using ih p
    | true =>
      have hnp : clean_sentence s ∉ p := by
        have := (Bool.and_eq_true _ _).mp hg
        simpa using this.2
      obtain ⟨h1, h2, h3, h4⟩ := ih (clean_sentence s :: p)
      rcases he : emitLoop (clean_sentence s :: p) rest with ⟨out, p'⟩
      rw [he] at h1 h2 h3 h4
      simp only [emitLoop, hg, if_true, he]
      refine ⟨?_, ?_, ?_, ?_⟩
      · refine List.nodup_cons.mpr ⟨?_, h1⟩
        intro hmem
        exact h2 _ hmem (List.mem_cons_self _ _)
      · intro x hx
        rcases List.mem_cons.mp hx with h | h
        · rw [h]; exact hnp
        · exact fun hp => h2 x h (List.mem_cons_of_mem _ hp)
      · intro x hx
        exact h3 x (List.mem_cons_of_mem _ hx)
      · intro x hx
        rcases List.mem_cons.mp hx with h | h
        · rw [h]; exact h3 _ (List.mem_cons_self _ _)
        · exact h4 x h

/-- Invariants of one `process_chunk` call, with respect to the
processed-sentences set. -/
theorem process_chunk_spec (st : SPState) (text : String) :
    (process_chunk st text).1.Nodup ∧
    (∀ x ∈ (process_chunk st text).1, x ∉ st.processed) ∧
    (∀ x ∈ st.processed, x ∈ (process_chunk st text).2.processed) ∧
    (∀ x ∈ (process_chunk st text).1, x ∈ (process_chunk st text).2.processed) := by
  unfold process_chunk
  by_cases h1 : 1 < (splitSentences (st.buffer ++ text)).length
  · simp only [h1, if_true]
    have h := emitLoop_spec ((splitSentences (st.buffer ++ text)).dropLast) st.processed
    rcases he : emitLoop st.processed ((splitSentences (st.buffer ++ text)).dropLast)
      with ⟨out, p'⟩
    rw [he] at h
    simpa using h
  · simp only [h1, if_false]
    cases h2 : (pyStrip text ≠ "" && is_complete_sentence (st.buffer ++ text)) with
    | false =>
      simp [h2]
    | true =>
      simp only [h2, if_true]
      by_cases h3 : clean_sentence (st.buffer ++ text) ∈ st.processed
      · simp [h3]
      · simp only [h3, if_false]
        refine ⟨List.nodup_singleton _, ?_, ?_, ?_⟩
        · intro x hx
          rw [List.mem_singleton.mp hx]
          exact h3
        · intro x hx
          exact List.mem_cons_of_mem _ hx
        · intro x hx
          rw [List.mem_singleton.mp hx]
          exact List.mem_cons_self _ _

/-- Invariants of the whole streamed-reply loop. -/
theorem processChunks_spec (chunks : List String) (st : SPState) :
    (processChunks st chunks).1.Nodup ∧
    (∀ x ∈ (processChunks st chunks).1, x ∉ st.processed) ∧
    (∀ x ∈ st.processed, x ∈ (processChunks st chunks).2.processed) ∧
    (∀ x ∈ (processChunks st chunks).1, x ∈ (processChunks st chunks).2.processed) := by
  induction chunks generalizing st with
  | nil => simp [processChunks]
  | cons c rest ih =>
    obtain ⟨a1, a2, a3, a4⟩ := process_chunk_spec st c
    rcases hc : process_chunk st c with ⟨out1, st1⟩
    rw [hc] at a1 a2 a3 a4
    obtain ⟨b1, b2, b3, b4⟩ := ih st1
    rcases hr : processChunks st1 rest with ⟨out2, st2⟩
    rw [hr] at b1 b2 b3 b4
    simp only [processChunks, hc, hr]
    refine ⟨?_, ?_, ?_, ?_⟩
    · rw [List.nodup_append]
      exact ⟨a1, b1, fun x hx1 hx2 => b2 x hx2 (a4 x hx1)⟩
    · intro x hx
      rcases List.mem_append.mp hx with h | h
      · exact a2 x h
      · exact fun hp => b2 x h (a3 x hp)
    · intro x hx
      exact b3 x (a3 x hx)
    · intro x hx
      rcases List.mem_append.mp hx with h | h
      · exact b3 x (a4 x h)
      · exact b4 x h

/-- When `get_remaining` yields a sentence, that sentence was not yet
in the processed set. -/
theorem get_remaining_not_processed (st : SPState) (r : String) (st' : SPState)
    (h : get_remaining st = (some r, st')) : r ∉ st.processed := by
  unfold get_remaining at h
  by_cases h1 : st.buffer ≠ ""
  · rw [if_pos h1] at h
    cases h2 : (is_complete_sentence (clean_sentence st.buffer)
        && !(decide (clean_sentence st.buffer ∈ st.processed))) with
    | false =>
      simp [h2] at h
    | true =>
      simp only [h2, if_true] at h
      have hr : clean_sentence st.buffer = r := by
        have := congrArg Prod.fst h
        simpa using this
      have hnp : clean_sentence st.buffer ∉ st.processed := by
        have := (Bool.and_eq_true _ _).mp h2
        simpa using this.2
      rw [← hr]
      exact hnp
  · rw [if_neg h1] at h
    simp at h

/-- C10: within a single `process_response` call, each distinct cleaned
sentence is enqueued at most once — the full list of sentence contents
put on the client's queue for one streamed reply has no duplicates, so
a repeated sentence in the reply is silently dropped rather than
delivered again. -/
theorem response_puts_nodup (chunks : List String) :
    (response_puts chunks).Nodup := by
  unfold response_puts
  obtain ⟨a1, a2, a3, a4⟩ := processChunks_spec chunks ⟨"", []⟩
  rcases h1 : processChunks ⟨"", []⟩ chunks with ⟨out, st⟩
  rw [h1] at a1 a2 a3 a4
  rcases h2 : get_remaining st with ⟨ro, st'⟩
  show (match get_remaining st with
    | (some r, _) => out ++ [r]
    | (none, _) => out).Nodup
  rw [h2]
  cases ro with
  | none => exact a1
  | some r =>
    show (out ++ [r]).Nodup
    rw [List.nodup_append]
    refine ⟨a1, List.nodup_singleton r, ?_⟩
    intro x hx hxr
    rw [List.mem_singleton.mp hxr] at hx
    exact get_remaining_not_processed st r st' h2 (a4 r hx)

end VoiceAgent
